/-
Verification of `tools/plot_lut_opt.py`: a CLI utility that loads a CSV of
LUT size/MSE/PSNR measurements and prints a textual optimization summary.

The script has two implementations selected by library availability:
a pandas-based one and a pure `csv`-module fallback.  Both are embedded
here.  Python floats are modelled as `PyFloat` (finite rational, ±infinity
or NaN); machine rounding never affects any comparison performed by the
script on the inputs considered, so rationals stand in for binary floats.
Chart rendering (matplotlib) is out of scope, per the design document.
-/
import Mathlib

namespace PlotLutOpt

/-- Model of a Python float value: a finite value (as a rational), one of the
two infinities, or NaN. -/
inductive PyFloat where
  | fin (q : ℚ)
  | inf
  | neginf
  | nan
deriving DecidableEq, Repr

namespace PyFloat

/-- `math.isinf` / `np.isinf`: true on both infinities. -/
def isinf : PyFloat → Bool
  | .inf => true
  | .neginf => true
  | _ => false

/-- `math.isnan` / `np.isnan`. -/
def isnan : PyFloat → Bool
  | .nan => true
  | _ => false

/-- True exactly on finite values. -/
def isfin : PyFloat → Bool
  | .fin _ => true
  | _ => false

/-- True on finite values and +infinity (the shapes the spec's data-model
invariant allows for a PSNR). -/
def finOrInf : PyFloat → Bool
  | .fin _ => true
  | .inf => true
  | _ => false

/-- Python `>` on floats: any comparison with NaN is false. -/
def gt : PyFloat → PyFloat → Bool
  | .nan, _ => false
  | _, .nan => false
  | .fin a, .fin b => decide (a > b)
  | .fin _, .inf => false
  | .fin _, .neginf => true
  | .inf, .inf => false
  | .inf, _ => true
  | .neginf, _ => false

/-- Python `<` on floats. -/
def lt (a b : PyFloat) : Bool := gt b a

/-- Python `>=` on floats: any comparison with NaN is false. -/
def ge : PyFloat → PyFloat → Bool
  | .nan, _ => false
  | _, .nan => false
  | .fin a, .fin b => decide (a ≥ b)
  | .fin _, .inf => false
  | .fin _, .neginf => true
  | .inf, _ => true
  | .neginf, .neginf => true
  | .neginf, _ => false

/-- Python `==` on floats: NaN compares unequal to everything, itself
included. -/
def pyEq : PyFloat → PyFloat → Bool
  | .fin a, .fin b => decide (a = b)
  | .inf, .inf => true
  | .neginf, .neginf => true
  | _, _ => false

end PyFloat

/-- A Python exception aborting the fallback CSV read (`except Exception`). -/
inductive PyErr where
  | keyError (k : String)
  | valueError (s : String)
deriving DecidableEq, Repr

instance {ε α : Type} [DecidableEq ε] [DecidableEq α] : DecidableEq (Except ε α) := fun x y =>
  match x, y with
  | .ok a, .ok b =>
      if h : a = b then .isTrue (by rw [h]) else .isFalse (by intro hh; cases hh; exact h rfl)
  | .error a, .error b =>
      if h : a = b then .isTrue (by rw [h]) else .isFalse (by intro hh; cases hh; exact h rfl)
  | .ok _, .error _ => .isFalse (by intro hh; cases hh)
  | .error _, .ok _ => .isFalse (by intro hh; cases hh)

/-! ### Models of the Python string/number primitives used by the loader -/

/-- Whitespace recognised by `str.strip()` (the ASCII fragment). -/
def pyIsSpace (c : Char) : Bool :=
  c == ' ' || c == '\t' || c == '\n' || c == '\r' || c == '\x0b' || c == '\x0c'

/-- `str.strip()`: drop leading and trailing whitespace. -/
def pyStrip (l : List Char) : List Char :=
  ((l.dropWhile pyIsSpace).reverse.dropWhile pyIsSpace).reverse

/-- `str.lower()` (ASCII fragment). -/
def pyLower (l : List Char) : List Char :=
  l.map fun c => if 'A' ≤ c ∧ c ≤ 'Z' then Char.ofNat (c.toNat + 32) else c

/-- ASCII decimal digit test. -/
def isDig (c : Char) : Bool := decide ('0' ≤ c ∧ c ≤ '9')

/-- Value of a digit string. -/
def digitsVal (l : List Char) : ℕ :=
  l.foldl (fun a c => 10 * a + (c.toNat - 48)) 0

/-- Value of `ipart.fpart` when both are digit strings and not both empty:
the rational (ipart·10^k + fpart) / 10^k, i.e. ipart + fpart/10^k. -/
def decOfParts (ip fp : List Char) : Option ℚ :=
  if ip.isEmpty && fp.isEmpty then none
  else if ip.all isDig && fp.all isDig then
    some (Rat.divInt (digitsVal ip * 10 ^ fp.length + digitsVal fp : ℕ) (10 ^ fp.length))
  else none

/-- Parse an unsigned decimal literal (digits with an optional single point;
the exponent forms of the float grammar are not needed by this script's
inputs and are not modelled). -/
def parseDecChars (l : List Char) : Option ℚ :=
  match l.span (fun c => !(c == '.')) with
  | (ip, []) => decOfParts ip []
  | (ip, _ :: fp) => if fp.contains '.' then none else decOfParts ip fp

/-- Split an optional leading sign. Returns (isNegative, rest). -/
def splitSign : List Char → Bool × List Char
  | '+' :: r => (false, r)
  | '-' :: r => (true, r)
  | r => (false, r)

/-- Model of Python's builtin `float(str)`: strips whitespace, accepts an
optional sign followed by `inf`/`infinity`/`nan` (case-insensitively) or a
decimal literal; anything else raises `ValueError`. -/
def pyFloatOfString (s : String) : Except PyErr PyFloat :=
  let t := pyLower (pyStrip s.toList)
  let (neg, u) := splitSign t
  if u == "inf".toList || u == "infinity".toList then
    .ok (if neg then .neginf else .inf)
  else if u == "nan".toList then
    .ok .nan
  else
    match parseDecChars u with
    | some q => .ok (.fin (if neg then -q else q))
    | none => .error (.valueError s)

/-- Model of Python's builtin `int(str)`: strips whitespace, accepts an
optional sign followed by digits; anything else raises `ValueError`. -/
def pyIntOfString (s : String) : Except PyErr Int :=
  let t := pyStrip s.toList
  let (neg, u) := splitSign t
  if u ≠ [] ∧ u.all isDig then
    .ok (if neg then -(digitsVal u : Int) else (digitsVal u : Int))
  else .error (.valueError s)

/-! ### The fallback loader (csv-module path, source lines 50-111) -/

/-- One loaded measurement row of the fallback table (`SimpleDF` data). -/
structure MRow where
  size : Int
  train_mse : PyFloat
  train_psnr : PyFloat
  val_mse : PyFloat
  val_psnr : PyFloat
deriving DecidableEq, Repr

/-- `row[k]` on a `csv.DictReader` row: the dict keys are the header names
zipped with the row's cells; a missing key raises `KeyError`. -/
def lookupCell (hdr row : List String) (k : String) : Except PyErr String :=
  match (hdr.zip row).find? (fun p => p.1 == k) with
  | some p => .ok p.2
  | none => .error (.keyError k)

/-- The PSNR-cell handling of the loader (lines 62-67 and 73-77): strip the
cell, map a case-insensitive `inf` to +infinity, otherwise call `float`. -/
def psnrOfCell (s : String) : Except PyErr PyFloat :=
  let t := pyStrip s.toList
  if pyLower t == "inf".toList then .ok .inf
  else pyFloatOfString (String.mk t)

/-- Statement ingredient: the stripped, lowercased cell reads `nan` after an
optional sign — exactly the strings Python's `float` maps to NaN. -/
def nanSpelled (s : String) : Bool :=
  (splitSign (pyLower (pyStrip s.toList))).2 == "nan".toList

/-- Parse one CSV data row exactly as the loop body at lines 58-80 does,
also returning whether this row sets `has_validation`. -/
def parseRow (hdr row : List String) : Except PyErr (MRow × Bool) := do
  let szCell ← lookupCell hdr row "size"
  let sz ← pyIntOfString szCell
  let tmCell ← lookupCell hdr row "train_mse"
  let tm ← pyFloatOfString tmCell
  let tpCell ← lookupCell hdr row "train_psnr"
  let tp ← psnrOfCell tpCell
  if hdr.contains "val_psnr" then
    let vpCell ← lookupCell hdr row "val_psnr"
    if String.mk (pyStrip vpCell.toList) ≠ "" then
      let vmCell ← lookupCell hdr row "val_mse"
      let vm ← pyFloatOfString vmCell
      let vp ← psnrOfCell vpCell
      pure (⟨sz, tm, tp, vm, vp⟩, true)
    else
      pure (⟨sz, tm, tp, .fin 0, .fin 0⟩, false)
  else
    pure (⟨sz, tm, tp, .fin 0, .fin 0⟩, false)

/-- The whole fallback read loop: the first row that raises aborts the read
(the surrounding `try` at lines 52-111 catches it and the program exits 1).
Returns the loaded rows in input order and the final `has_validation` flag. -/
def fallbackLoad (hdr : List String) : List (List String) → Except PyErr (List MRow × Bool)
  | [] => .ok ([], false)
  | r :: rs => do
    let (m, v) ← parseRow hdr r
    let (ms, hv) ← fallbackLoad hdr rs
    pure (m :: ms, v || hv)

/-! ### Validator (lines 113-118) -/

/-- `required_cols = ['size', 'train_psnr']` (line 114). -/
def required_cols : List String := ["size", "train_psnr"]

/-- `missing_cols = [col for col in required_cols if col not in df.columns]`
(line 115). -/
def missing_cols (cols : List String) : List String :=
  required_cols.filter fun c => !cols.contains c

/-- The columns of the fallback `SimpleDF` (lines 98-104): always all five,
whatever the input header was. -/
def fdfColumns : List String := ["size", "train_mse", "train_psnr", "val_mse", "val_psnr"]

/-! ### Summarizer (lines 202-248) -/

/-- What the "Best Train PSNR" line reports: either the textual
perfect-reconstruction message or a numeric PSNR with its size. -/
inductive PsnrReport where
  | perfect
  | num (psnr : PyFloat) (size : Int)
deriving DecidableEq, Repr

/-- The fallback maximum-search loop (lines 237-240).  The loop reads
`train_psnrs[max_idx]`; since the list is immutable this value is carried
along as `av` (the invariant `av = psnrs[a]` holds at every call). -/
def maxLoopGo : List PyFloat → ℕ → ℕ → PyFloat → ℕ × PyFloat
  | [], _, a, av => (a, av)
  | p :: ps, i, a, av =>
    if !p.isinf && (av.isinf || p.gt av) then maxLoopGo ps (i + 1) i p
    else maxLoopGo ps (i + 1) a av

/-- The fallback "Best Train PSNR" report (lines 237-245): run the loop from
`max_idx = 0`, then report the perfect-reconstruction message if the found
entry is infinite, else its value and size. -/
def fallbackBestPsnr (sizes : List Int) (psnrs : List PyFloat) : PsnrReport :=
  match psnrs with
  | [] => .perfect  -- unreachable: Python raises IndexError on an empty series
  | p :: _ =>
    let r := maxLoopGo psnrs 0 0 p
    if (r.2).isinf then .perfect else .num r.2 (sizes.getD r.1 0)

/-- Python's builtin `min` over a list: strictly-smaller elements replace the
accumulator, so the first minimal element wins; empty input raises. -/
def pyMin : List PyFloat → Option PyFloat
  | [] => none
  | x :: xs => some (xs.foldl (fun a b => if b.lt a then b else a) x)

/-- Python's `list.index`: first position comparing `==` to the value. -/
def listIndex : List PyFloat → PyFloat → Option ℕ
  | [], _ => none
  | x :: xs, v => if x.pyEq v then some 0 else (listIndex xs v).map (· + 1)

/-- The fallback "Lowest Train MSE" report (lines 247-248):
`min_mse_idx = train_mses.index(min(train_mses))`, then the value and the
size at that index. -/
def fallbackLowestMse (sizes : List Int) (mses : List PyFloat) : Option (PyFloat × Int) :=
  match pyMin mses with
  | none => none  -- min([]) raises ValueError
  | some v =>
    match listIndex mses v with
    | none => none  -- unreachable: the minimum is a member of the list
    | some i => some (v, sizes.getD i 0)

/-- `series.replace([np.inf, -np.inf], np.nan)` (lines 205, 207). -/
def maskInf (xs : List PyFloat) : List PyFloat :=
  xs.map fun x => if x.isinf then .nan else x

/-- One step of pandas `Series.max` (skipna): NaN entries are ignored. -/
def smStep (a x : PyFloat) : PyFloat :=
  if x.isnan then a else if a.isnan then x else if x.gt a then x else a

/-- pandas `Series.max()` with default `skipna=True`; NaN if nothing remains. -/
def seriesMax (xs : List PyFloat) : PyFloat := xs.foldl smStep .nan

/-- Worker for pandas `Series.idxmax`: first index of the maximum among
non-NaN entries; strict improvement keeps the earliest occurrence. -/
def idxmaxGo : List PyFloat → ℕ → Option (ℕ × PyFloat) → Option (ℕ × PyFloat)
  | [], _, acc => acc
  | x :: xs, i, acc =>
    if x.isnan then idxmaxGo xs (i + 1) acc
    else
      match acc with
      | none => idxmaxGo xs (i + 1) (some (i, x))
      | some (a, av) =>
        if x.gt av then idxmaxGo xs (i + 1) (some (i, x))
        else idxmaxGo xs (i + 1) (some (a, av))

/-- pandas `Series.idxmax()`: `none` models the all-NaN error case. -/
def seriesIdxmax (xs : List PyFloat) : Option (ℕ × PyFloat) := idxmaxGo xs 0 none

/-- The pandas "Best Train PSNR" report (lines 204-209): mask infinities to
NaN, take the skipna max; if NaN report the perfect-reconstruction message,
else the max and the size at `idxmax`. -/
def pandasBestPsnr (sizes : List Int) (psnrs : List PyFloat) : PsnrReport :=
  let masked := maskInf psnrs
  let m := seriesMax masked
  if m.isnan then .perfect
  else
    match seriesIdxmax masked with
    | some p => .num m (sizes.getD p.1 0)
    | none => .perfect  -- unreachable: a non-NaN maximum occurs at some index

/-- One step of pandas `Series.min` (skipna). -/
def sminStep (a x : PyFloat) : PyFloat :=
  if x.isnan then a else if a.isnan then x else if x.lt a then x else a

/-- pandas `Series.min()` with default `skipna=True`. -/
def seriesMin (xs : List PyFloat) : PyFloat := xs.foldl sminStep .nan

/-- Worker for pandas `Series.idxmin`: first index of the minimum among
non-NaN entries. -/
def idxminGo : List PyFloat → ℕ → Option (ℕ × PyFloat) → Option (ℕ × PyFloat)
  | [], _, acc => acc
  | x :: xs, i, acc =>
    if x.isnan then idxminGo xs (i + 1) acc
    else
      match acc with
      | none => idxminGo xs (i + 1) (some (i, x))
      | some (a, av) =>
        if x.lt av then idxminGo xs (i + 1) (some (i, x))
        else idxminGo xs (i + 1) (some (a, av))

/-- pandas `Series.idxmin()`: `none` models the all-NaN error case. -/
def seriesIdxmin (xs : List PyFloat) : Option (ℕ × PyFloat) := idxminGo xs 0 none

/-- The pandas "Lowest Train MSE" report (line 211): `df['train_mse'].min()`
and the size at `df['train_mse'].idxmin()`. -/
def pandasLowestMse (sizes : List Int) (mses : List PyFloat) : Option (PyFloat × Int) :=
  match seriesIdxmin mses with
  | none => none  -- idxmin raises on an all-NaN series
  | some p => some (seriesMin mses, sizes.getD p.1 0)

/-! ### Threshold search (pandas path, lines 220-230) -/

/-- `goals = [30, 36, 40]` (line 221). -/
def goals : List ℚ := [30, 36, 40]

/-- `meeting_goal.loc[meeting_goal['size'].idxmin()]`: the first row (in
original order) among the filtered rows whose size is minimal. -/
def sizeArgminGo : List (Int × PyFloat) → (Int × PyFloat) → (Int × PyFloat)
  | [], best => best
  | r :: rs, best => sizeArgminGo rs (if r.1 < best.1 then r else best)

/-- Lines 223-225: filter rows with `train_psnr >= goal`, and if any remain
pick the one with the smallest size (first occurrence on ties). -/
def thresholdSearch (sizes : List Int) (psnrs : List PyFloat) (goal : ℚ) :
    Option (Int × PyFloat) :=
  match (sizes.zip psnrs).filter (fun r => r.2.ge (.fin goal)) with
  | [] => none
  | r :: rs => some (sizeArgminGo rs r)

/-- One printed "Smallest size for G dB train" line: the infinity glyph is
used in place of a number when the winning row's PSNR is infinite
(lines 226-230); `none` means the goal is silently omitted (line 224). -/
inductive GoalLine where
  | infPsnr (size : Int)
  | numPsnr (size : Int) (psnr : PyFloat)
deriving DecidableEq, Repr

/-- The report for one goal. -/
def reportGoal (sizes : List Int) (psnrs : List PyFloat) (goal : ℚ) : Option GoalLine :=
  (thresholdSearch sizes psnrs goal).map fun r =>
    if r.2.isinf then .infPsnr r.1 else .numPsnr r.1 r.2

/-! ### Whole-program pipelines (summary fragment) -/

/-- Outcome of the pandas path after `pd.read_csv` succeeds: either the
missing-columns error (exit 1, before any statistic or chart), or the
summary report. -/
inductive PandasOutcome where
  | missingColsError (cols : List String)
  | done (best : PsnrReport) (lowest : Option (PyFloat × Int)) (goalLines : List (Option GoalLine))
deriving DecidableEq, Repr

/-- The pandas path from validation onward (lines 113-118, 202-230), applied
to the parsed columns of the dataframe. -/
def runPandas (hdr : List String) (sizes : List Int) (mses psnrs : List PyFloat) :
    PandasOutcome :=
  if missing_cols hdr ≠ [] then .missingColsError (missing_cols hdr)
  else
    .done (pandasBestPsnr sizes psnrs) (pandasLowestMse sizes mses)
      (goals.map (reportGoal sizes psnrs))

/-- Outcome of the fallback path: a caught CSV-read exception (exit 1), the
missing-columns error (exit 1), an uncaught crash (Python traceback), or the
summary. -/
inductive FallbackOutcome where
  | readError (e : PyErr)
  | missingColsError (cols : List String)
  | crash
  | done (best : PsnrReport) (lowest : Option (PyFloat × Int))
deriving DecidableEq, Repr

/-- The fallback summary (lines 232-248); `none` models the IndexError that
`train_psnrs[max_idx]` raises on an empty series. -/
def fallbackSummary (ms : List MRow) : Option (PsnrReport × Option (PyFloat × Int)) :=
  match ms with
  | [] => none
  | _ :: _ =>
    some (fallbackBestPsnr (ms.map MRow.size) (ms.map MRow.train_psnr),
          fallbackLowestMse (ms.map MRow.size) (ms.map MRow.train_mse))

/-- The fallback path end to end: load, validate (the SimpleDF always has
all five columns, so validation cannot fail here), then summarize. -/
def runFallback (hdr : List String) (rows : List (List String)) : FallbackOutcome :=
  match fallbackLoad hdr rows with
  | .error e => .readError e
  | .ok (ms, _) =>
    if missing_cols fdfColumns ≠ [] then .missingColsError (missing_cols fdfColumns)
    else
      match fallbackSummary ms with
      | none => .crash
      | some s => .done s.1 s.2

/-! ### Helper lemmas -/

lemma getD_mem_of_lt {α : Type} (d : α) :
    ∀ (xs : List α) (i : ℕ), i < xs.length → xs.getD i d ∈ xs
  | x :: xs, 0, _ => List.mem_cons_self x xs
  | x :: xs, i + 1, h =>
      List.mem_cons_of_mem x (getD_mem_of_lt d xs i (by simpa using h))

lemma finOrInf_shape {p : PyFloat} (h : p.finOrInf = true) :
    (∃ q, p = .fin q) ∨ p = .inf := by
  cases p <;> simp_all [PyFloat.finOrInf]

lemma isfin_shape {p : PyFloat} (h : p.isfin = true) : ∃ q, p = .fin q := by
  cases p <;> simp_all [PyFloat.isfin]

/-- Entries of the masked series are finite or NaN when the original entries
are finite or infinite. -/
lemma maskInf_shape {ps : List PyFloat} (h : ps.all PyFloat.finOrInf = true) :
    ∀ x ∈ maskInf ps, x = .nan ∨ ∃ q, x = .fin q := by
  intro x hx
  rcases List.mem_map.1 hx with ⟨y, hy, rfl⟩
  rcases finOrInf_shape (List.all_eq_true.1 h y hy) with ⟨q, rfl⟩ | rfl
  · exact Or.inr ⟨q, by simp [PyFloat.isinf]⟩
  · exact Or.inl (by simp [PyFloat.isinf])

/-- Masking preserves the finite entries. -/
lemma mem_maskInf_fin {ps : List PyFloat} {r : ℚ} :
    .fin r ∈ maskInf ps ↔ .fin r ∈ ps := by
  constructor
  · intro h
    rcases List.mem_map.1 h with ⟨y, hy, hf⟩
    cases y <;> simp_all [PyFloat.isinf]
  · intro h
    exact List.mem_map.2 ⟨.fin r, h, by simp [PyFloat.isinf]⟩

/-- `idxmaxGo` ignores an all-NaN suffix. -/
lemma idxmaxGo_all_nan :
    ∀ (xs : List PyFloat) (i : ℕ) (acc : Option (ℕ × PyFloat)),
      (∀ x ∈ xs, x = .nan) → idxmaxGo xs i acc = acc
  | [], _, _, _ => rfl
  | x :: xs, i, acc, h => by
      have hx : x = .nan := h x (List.mem_cons_self x xs)
      subst hx
      simp only [idxmaxGo, PyFloat.isnan, if_pos]
      exact idxmaxGo_all_nan xs (i + 1) acc (fun y hy => h y (List.mem_cons_of_mem _ hy))

/-- The fallback loop never moves off an infinite accumulator when every
remaining entry is infinite. -/
lemma maxLoopGo_all_inf :
    ∀ (ps : List PyFloat) (i a : ℕ), (∀ p ∈ ps, p = .inf) →
      maxLoopGo ps i a .inf = (a, .inf)
  | [], _, _, _ => rfl
  | p :: ps, i, a, h => by
      have hp : p = .inf := h p (List.mem_cons_self p ps)
      subst hp
      simp only [maxLoopGo, PyFloat.isinf, Bool.not_true, Bool.false_and, if_neg,
        Bool.false_eq_true, not_false_eq_true]
      exact maxLoopGo_all_inf ps (i + 1) a (fun y hy => h y (List.mem_cons_of_mem _ hy))

/-- Processing the head of the series with itself as accumulator is a no-op:
the strict-improvement test never fires on the first iteration. -/
lemma maxLoopGo_cons_self (p : PyFloat) (ps : List PyFloat) :
    maxLoopGo (p :: ps) 0 0 p = maxLoopGo ps 1 0 p := by
  cases p <;> simp [maxLoopGo, PyFloat.isinf, PyFloat.gt]

/-- Simulation, finite accumulator: on a NaN-free series the pandas
`idxmax` scan over the masked entries tracks the fallback loop exactly. -/
lemma idxmaxGo_eq_maxLoopGo_fin :
    ∀ (ps : List PyFloat) (i a : ℕ) (qa : ℚ),
      (∀ p ∈ ps, (∃ q, p = .fin q) ∨ p = .inf) →
      idxmaxGo (maskInf ps) i (some (a, .fin qa)) = some (maxLoopGo ps i a (.fin qa))
  | [], _, _, _, _ => rfl
  | p :: ps, i, a, qa, hwf => by
      have htail := fun x hx => hwf x (List.mem_cons_of_mem p hx)
      rcases hwf p (List.mem_cons_self p ps) with ⟨q, rfl⟩ | rfl
      · have hm : maskInf (.fin q :: ps) = .fin q :: maskInf ps := by
          simp [maskInf, PyFloat.isinf]
        rw [hm]
        by_cases h : q > qa
        · simp only [idxmaxGo, maxLoopGo, PyFloat.isnan, PyFloat.isinf, PyFloat.gt]
          simp [h]
          exact idxmaxGo_eq_maxLoopGo_fin ps (i + 1) i q htail
        · simp only [idxmaxGo, maxLoopGo, PyFloat.isnan, PyFloat.isinf, PyFloat.gt]
          simp [h]
          exact idxmaxGo_eq_maxLoopGo_fin ps (i + 1) a qa htail
      · have hm : maskInf (.inf :: ps) = .nan :: maskInf ps := by
          simp [maskInf, PyFloat.isinf]
        rw [hm]
        simp only [idxmaxGo, maxLoopGo, PyFloat.isnan, PyFloat.isinf, Bool.not_true,
          Bool.false_and, if_true, if_false]
        exact idxmaxGo_eq_maxLoopGo_fin ps (i + 1) a qa htail

/-- Simulation, empty/infinite accumulator: either no finite entry ever
shows up (pandas scan stays `none`, the fallback loop keeps its seed), or
the two scans coincide from the first finite entry on. -/
lemma idxmaxGo_eq_maxLoopGo_inf :
    ∀ (ps : List PyFloat) (i a : ℕ),
      (∀ p ∈ ps, (∃ q, p = .fin q) ∨ p = .inf) →
      (idxmaxGo (maskInf ps) i none = none ∧ maxLoopGo ps i a .inf = (a, .inf)) ∨
        idxmaxGo (maskInf ps) i none = some (maxLoopGo ps i a .inf)
  | [], _, _, _ => Or.inl ⟨rfl, rfl⟩
  | p :: ps, i, a, hwf => by
      have htail := fun x hx => hwf x (List.mem_cons_of_mem p hx)
      rcases hwf p (List.mem_cons_self p ps) with ⟨q, rfl⟩ | rfl
      · have hm : maskInf (.fin q :: ps) = .fin q :: maskInf ps := by
          simp [maskInf, PyFloat.isinf]
        rw [hm]
        simp only [idxmaxGo, maxLoopGo, PyFloat.isnan, PyFloat.isinf, Bool.not_false,
          Bool.true_or, Bool.true_and, if_true, if_false]
        exact Or.inr (idxmaxGo_eq_maxLoopGo_fin ps (i + 1) i q htail)
      · have hm : maskInf (.inf :: ps) = .nan :: maskInf ps := by
          simp [maskInf, PyFloat.isinf]
        rw [hm]
        simp only [idxmaxGo, maxLoopGo, PyFloat.isnan, PyFloat.isinf, Bool.not_true,
          Bool.false_and, if_true, if_false]
        exact idxmaxGo_eq_maxLoopGo_inf ps (i + 1) a htail

/-- Value properties of the pandas `idxmax` scan started from a finite
accumulator, over a finite-or-NaN series: the result is finite, no smaller
than the seed, an entry unless it is the seed, and bounds every finite
entry. -/
lemma idxmaxGo_some_spec :
    ∀ (xs : List PyFloat) (i a : ℕ) (qa : ℚ),
      (∀ x ∈ xs, x = .nan ∨ ∃ q, x = .fin q) →
      ∃ j v, idxmaxGo xs i (some (a, .fin qa)) = some (j, .fin v) ∧ qa ≤ v ∧
        (v = qa ∨ .fin v ∈ xs) ∧ ∀ r, .fin r ∈ xs → r ≤ v
  | [], i, a, qa, _ => ⟨a, qa, rfl, le_refl _, Or.inl rfl, by simp⟩
  | x :: xs, i, a, qa, hfn => by
      have htail := fun y hy => hfn y (List.mem_cons_of_mem x hy)
      rcases hfn x (List.mem_cons_self x xs) with rfl | ⟨q, rfl⟩
      · simp only [idxmaxGo, PyFloat.isnan, if_true]
        obtain ⟨j, v, h1, h2, h3, h4⟩ := idxmaxGo_some_spec xs (i + 1) a qa htail
        refine ⟨j, v, h1, h2, ?_, ?_⟩
        · rcases h3 with h | h
          · exact Or.inl h
          · exact Or.inr (List.mem_cons_of_mem _ h)
        · intro r hr
          rcases List.mem_cons.1 hr with h | h
          · cases h
          · exact h4 r h
      · by_cases h : q > qa
        · simp only [idxmaxGo, PyFloat.isnan, PyFloat.gt]
          simp only [h, decide_eq_true_eq, if_true, if_false, Bool.false_eq_true]
          obtain ⟨j, v, h1, h2, h3, h4⟩ := idxmaxGo_some_spec xs (i + 1) i q htail
          refine ⟨j, v, h1, le_of_lt (lt_of_lt_of_le h h2), ?_, ?_⟩
          · rcases h3 with rfl | hm
            · exact Or.inr (List.mem_cons_self _ _)
            · exact Or.inr (List.mem_cons_of_mem _ hm)
          · intro r hr
            rcases List.mem_cons.1 hr with hh | hh
            · cases hh; exact h2
            · exact h4 r hh
        · have hgt : decide (q > qa) = false := decide_eq_false h
          simp only [idxmaxGo, PyFloat.isnan, PyFloat.gt, hgt, Bool.false_eq_true, if_false]
          obtain ⟨j, v, h1, h2, h3, h4⟩ := idxmaxGo_some_spec xs (i + 1) a qa htail
          refine ⟨j, v, h1, h2, ?_, ?_⟩
          · rcases h3 with hh | hm
            · exact Or.inl hh
            · exact Or.inr (List.mem_cons_of_mem _ hm)
          · intro r hr
            rcases List.mem_cons.1 hr with hh | hh
            · cases hh; exact le_trans (le_of_not_lt h) h2
            · exact h4 r hh

/-- Value properties of the pandas `idxmax` scan started from `none`: as
soon as a finite entry exists, the scan returns a finite maximum that is an
entry and bounds every finite entry. -/
lemma idxmaxGo_none_spec :
    ∀ (xs : List PyFloat) (i : ℕ),
      (∀ x ∈ xs, x = .nan ∨ ∃ q, x = .fin q) →
      (∃ r, .fin r ∈ xs) →
      ∃ j v, idxmaxGo xs i none = some (j, .fin v) ∧ .fin v ∈ xs ∧
        ∀ r, .fin r ∈ xs → r ≤ v
  | [], _, _, hex => absurd hex (by simp)
  | x :: xs, i, hfn, hex => by
      have htail := fun y hy => hfn y (List.mem_cons_of_mem x hy)
      rcases hfn x (List.mem_cons_self x xs) with rfl | ⟨q, rfl⟩
      · simp only [idxmaxGo, PyFloat.isnan, if_true]
        have hex' : ∃ r, PyFloat.fin r ∈ xs := by
          obtain ⟨r, hr⟩ := hex
          rcases List.mem_cons.1 hr with h | h
          · cases h
          · exact ⟨r, h⟩
        obtain ⟨j, v, h1, h2, h3⟩ := idxmaxGo_none_spec xs (i + 1) htail hex'
        refine ⟨j, v, h1, List.mem_cons_of_mem _ h2, ?_⟩
        intro r hr
        rcases List.mem_cons.1 hr with h | h
        · cases h
        · exact h3 r h
      · simp only [idxmaxGo, PyFloat.isnan, if_false]
        obtain ⟨j, v, h1, h2, h3, h4⟩ := idxmaxGo_some_spec xs (i + 1) i q htail
        refine ⟨j, v, h1, ?_, ?_⟩
        · rcases h3 with rfl | hm
          · exact List.mem_cons_self _ _
          · exact List.mem_cons_of_mem _ hm
        · intro r hr
          rcases List.mem_cons.1 hr with hh | hh
          · cases hh; exact h2
          · exact h4 r hh

/-- The skipna fold behind `Series.max` tracks the value component of the
`idxmax` scan (non-NaN accumulator). -/
lemma smFold_sync :
    ∀ (xs : List PyFloat) (i a : ℕ) (v : PyFloat), v.isnan = false →
      ∃ j w, idxmaxGo xs i (some (a, v)) = some (j, w) ∧ w.isnan = false ∧
        xs.foldl smStep v = w
  | [], i, a, v, hv => ⟨a, v, rfl, hv, rfl⟩
  | x :: xs, i, a, v, hv => by
      by_cases hx : x.isnan = true
      · simp only [idxmaxGo, List.foldl, smStep, hx, if_true]
        exact smFold_sync xs (i + 1) a v hv
      · simp only [idxmaxGo, List.foldl, smStep, hx, hv, if_false]
        by_cases hg : x.gt v = true
        · simp only [hg, if_true]
          exact smFold_sync xs (i + 1) i x (by simp [hx])
        · simp only [hg, if_false]
          exact smFold_sync xs (i + 1) a v hv

/-- The skipna fold behind `Series.max` and the `idxmax` scan agree from the
empty accumulator: both stay empty/NaN, or both land on the same value. -/
lemma smFold_sync_none :
    ∀ (xs : List PyFloat) (i : ℕ),
      (idxmaxGo xs i none = none ∧ xs.foldl smStep .nan = .nan) ∨
        ∃ j w, idxmaxGo xs i none = some (j, w) ∧ w.isnan = false ∧
          xs.foldl smStep .nan = w
  | [], _ => Or.inl ⟨rfl, rfl⟩
  | x :: xs, i => by
      by_cases hx : x.isnan = true
      · simp only [idxmaxGo, List.foldl, smStep, hx, if_true]
        exact smFold_sync_none xs (i + 1)
      · have hx' : x.isnan = false := by revert hx; cases x.isnan <;> simp
        have hnn : PyFloat.nan.isnan = true := rfl
        simp only [idxmaxGo, List.foldl, smStep, hx', hnn, Bool.false_eq_true,
          if_false, if_true]
        exact Or.inr (smFold_sync xs (i + 1) i x hx')

/-- Master lemma for the "Best Train PSNR" line: over a non-empty NaN-free
series the pandas and fallback reports agree; they are the
perfect-reconstruction message when every entry is +infinity, and otherwise
report the maximum of the finite entries. -/
lemma bestPsnr_spec (sizes : List Int) (psnrs : List PyFloat)
    (hne : psnrs ≠ []) (hwf : psnrs.all PyFloat.finOrInf = true) :
    pandasBestPsnr sizes psnrs = fallbackBestPsnr sizes psnrs ∧
    ((∀ p ∈ psnrs, p = .inf) → pandasBestPsnr sizes psnrs = .perfect) ∧
    ((∃ r, .fin r ∈ psnrs) → ∃ M s, pandasBestPsnr sizes psnrs = .num (.fin M) s ∧
      .fin M ∈ psnrs ∧ ∀ r, .fin r ∈ psnrs → r ≤ M) := by
  obtain ⟨p, rest, rfl⟩ : ∃ p rest, psnrs = p :: rest := by
    cases psnrs with
    | nil => exact absurd rfl hne
    | cons a l => exact ⟨a, l, rfl⟩
  have hwf' : ∀ x ∈ p :: rest, (∃ q, x = PyFloat.fin q) ∨ x = .inf :=
    fun x hx => finOrInf_shape (List.all_eq_true.1 hwf x hx)
  have hrest : ∀ x ∈ rest, (∃ q, x = PyFloat.fin q) ∨ x = .inf :=
    fun x hx => hwf' x (List.mem_cons_of_mem _ hx)
  have hwfrest : rest.all PyFloat.finOrInf = true := by
    rw [List.all_cons, Bool.and_eq_true] at hwf
    exact hwf.2
  have hmaskshape : ∀ x ∈ maskInf rest, x = .nan ∨ ∃ q, x = PyFloat.fin q :=
    maskInf_shape hwfrest
  rcases hwf' p (List.mem_cons_self p rest) with ⟨q, rfl⟩ | rfl
  · -- head is finite
    have hmask : maskInf (.fin q :: rest) = .fin q :: maskInf rest := by
      simp [maskInf, PyFloat.isinf]
    have hidx0 : seriesIdxmax (maskInf (.fin q :: rest)) =
        idxmaxGo (maskInf rest) 1 (some (0, .fin q)) := by
      rw [hmask]; rfl
    have hsm0 : seriesMax (maskInf (.fin q :: rest)) =
        List.foldl smStep (.fin q) (maskInf rest) := by
      rw [hmask]; rfl
    obtain ⟨j, v, hj, hqv, hvm, hvb⟩ := idxmaxGo_some_spec (maskInf rest) 1 0 q hmaskshape
    have hml : maxLoopGo rest 1 0 (.fin q) = (j, .fin v) :=
      Option.some.inj ((idxmaxGo_eq_maxLoopGo_fin rest 1 0 q hrest).symm.trans hj)
    obtain ⟨j2, w, hj2, hwn, hfold⟩ := smFold_sync (maskInf rest) 1 0 (.fin q) rfl
    have hjw : (j2, w) = (j, PyFloat.fin v) := Option.some.inj (hj2.symm.trans hj)
    injection hjw with hjj hww
    have hsm : seriesMax (maskInf (.fin q :: rest)) = .fin v := by
      rw [hsm0, hfold, hww]
    have hpandas : pandasBestPsnr sizes (.fin q :: rest) = .num (.fin v) (sizes.getD j 0) := by
      simp only [pandasBestPsnr]
      rw [hsm, hidx0, hj]
      rfl
    have hfall : fallbackBestPsnr sizes (.fin q :: rest) = .num (.fin v) (sizes.getD j 0) := by
      simp only [fallbackBestPsnr]
      rw [maxLoopGo_cons_self, hml]
      rfl
    refine ⟨hpandas.trans hfall.symm, ?_, ?_⟩
    · intro hall
      exact absurd (hall _ (List.mem_cons_self _ _)) (by simp)
    · intro _
      refine ⟨v, sizes.getD j 0, hpandas, ?_, ?_⟩
      · rcases hvm with rfl | hm
        · exact List.mem_cons_self _ _
        · exact List.mem_cons_of_mem _ (mem_maskInf_fin.1 hm)
      · intro r hr
        rcases List.mem_cons.1 hr with hh | hh
        · cases hh; exact hqv
        · exact hvb r (mem_maskInf_fin.2 hh)
  · -- head is +infinity
    have hmask : maskInf (.inf :: rest) = .nan :: maskInf rest := by
      simp [maskInf, PyFloat.isinf]
    have hidx0 : seriesIdxmax (maskInf (.inf :: rest)) = idxmaxGo (maskInf rest) 1 none := by
      rw [hmask]; rfl
    have hsm0 : seriesMax (maskInf (.inf :: rest)) =
        List.foldl smStep .nan (maskInf rest) := by
      rw [hmask]; rfl
    rcases idxmaxGo_eq_maxLoopGo_inf rest 1 0 hrest with ⟨hnone, hkeep⟩ | hsome
    · -- no finite entry ever taken: both sides report the perfect message
      have hfoldnan : List.foldl smStep .nan (maskInf rest) = .nan := by
        rcases smFold_sync_none (maskInf rest) 1 with ⟨_, hfold⟩ | ⟨j, w, hj, _, _⟩
        · exact hfold
        · rw [hnone] at hj; cases hj
      have hpandas : pandasBestPsnr sizes (.inf :: rest) = .perfect := by
        simp only [pandasBestPsnr]
        rw [hsm0, hfoldnan]
        rfl
      have hfall : fallbackBestPsnr sizes (.inf :: rest) = .perfect := by
        simp only [fallbackBestPsnr]
        rw [maxLoopGo_cons_self, hkeep]
        rfl
      refine ⟨hpandas.trans hfall.symm, fun _ => hpandas, ?_⟩
      · rintro ⟨r, hr⟩
        have hrr : PyFloat.fin r ∈ rest := by
          rcases List.mem_cons.1 hr with hh | hh
          · cases hh
          · exact hh
        obtain ⟨j, v, hj, -, -⟩ := idxmaxGo_none_spec (maskInf rest) 1 hmaskshape
          ⟨r, mem_maskInf_fin.2 hrr⟩
        rw [hnone] at hj
        cases hj
    · -- a finite entry exists: both sides report the same finite maximum
      rcases smFold_sync_none (maskInf rest) 1 with ⟨hnone2, _⟩ | ⟨j, w, hj, hwn, hfold⟩
      · rw [hsome] at hnone2; cases hnone2
      · have hml : maxLoopGo rest 1 0 .inf = (j, w) :=
          Option.some.inj (hsome.symm.trans hj)
        have hex : ∃ r, PyFloat.fin r ∈ maskInf rest := by
          by_contra hno
          have hallnan : ∀ x ∈ maskInf rest, x = PyFloat.nan := by
            intro x hx
            rcases hmaskshape x hx with h | ⟨qq, rfl⟩
            · exact h
            · exact absurd ⟨qq, hx⟩ hno
          rw [idxmaxGo_all_nan _ _ _ hallnan] at hj
          cases hj
        obtain ⟨j2, v, hj2, hvm, hvb⟩ := idxmaxGo_none_spec (maskInf rest) 1 hmaskshape hex
        have hjw : (j, w) = (j2, PyFloat.fin v) := Option.some.inj (hj.symm.trans hj2)
        injection hjw with hjj hww
        have hpandas : pandasBestPsnr sizes (.inf :: rest) = .num (.fin v) (sizes.getD j 0) := by
          simp only [pandasBestPsnr]
          rw [hsm0, hfold, hww, hidx0, hj2, ← hjj]
          rfl
        have hfall : fallbackBestPsnr sizes (.inf :: rest) = .num (.fin v) (sizes.getD j 0) := by
          simp only [fallbackBestPsnr]
          rw [maxLoopGo_cons_self, hml, hww]
          rfl
        refine ⟨hpandas.trans hfall.symm, ?_, ?_⟩
        · intro hall
          have hrestinf : ∀ x ∈ rest, x = PyFloat.inf :=
            fun x hx => hall x (List.mem_cons_of_mem _ hx)
          have hallnan : ∀ x ∈ maskInf rest, x = PyFloat.nan := by
            intro x hx
            rcases List.mem_map.1 hx with ⟨y, hy, rfl⟩
            rw [hrestinf y hy]
            rfl
          rw [idxmaxGo_all_nan _ _ _ hallnan] at hj
          cases hj
        · intro _
          refine ⟨v, sizes.getD j 0, hpandas, ?_, ?_⟩
          · exact List.mem_cons_of_mem _ (mem_maskInf_fin.1 hvm)
          · intro r hr
            rcases List.mem_cons.1 hr with hh | hh
            · cases hh
            · exact hvb r (mem_maskInf_fin.2 hh)

/-- `idxminGo` over an all-finite series from a finite accumulator: the
result is the running minimum, with ties broken by first occurrence. -/
lemma idxminGo_some_spec :
    ∀ (xs : List PyFloat) (i a : ℕ) (qa : ℚ),
      (∀ x ∈ xs, ∃ q, x = .fin q) →
      ∃ j v, idxminGo xs i (some (a, .fin qa)) = some (j, .fin v) ∧ v ≤ qa ∧
        (∀ r, .fin r ∈ xs → v ≤ r) ∧
        ((j = a ∧ v = qa) ∨
          ∃ k, k < xs.length ∧ j = i + k ∧ xs.getD k .nan = .fin v ∧ v < qa ∧
            ∀ k', k' < k → xs.getD k' .nan ≠ .fin v)
  | [], i, a, qa, _ => ⟨a, qa, rfl, le_refl _, by simp, Or.inl ⟨rfl, rfl⟩⟩
  | x :: xs, i, a, qa, hfin => by
      have htail := fun y hy => hfin y (List.mem_cons_of_mem x hy)
      obtain ⟨r, rfl⟩ := hfin x (List.mem_cons_self x xs)
      by_cases hlt : r < qa
      · have hc : (PyFloat.fin r).lt (.fin qa) = true := by
          simp [PyFloat.lt, PyFloat.gt, hlt]
        simp only [idxminGo, PyFloat.isnan, Bool.false_eq_true, if_false, hc, if_true]
        obtain ⟨j, v, h1, h2, h3, h4⟩ := idxminGo_some_spec xs (i + 1) i r htail
        refine ⟨j, v, h1, le_of_lt (lt_of_le_of_lt h2 hlt), ?_, ?_⟩
        · intro s hs
          rcases List.mem_cons.1 hs with hh | hh
          · cases hh; exact h2
          · exact h3 s hh
        · rcases h4 with ⟨rfl, rfl⟩ | ⟨k, hk, hj, hget, hvr, hfirst⟩
          · exact Or.inr ⟨0, by simp, by omega, by simp, hlt, by omega⟩
          · refine Or.inr ⟨k + 1, by simpa using hk, by omega, by simpa using hget,
              lt_trans hvr hlt, ?_⟩
            intro k' hk'
            cases k' with
            | zero =>
                simp only [List.getD_cons_zero]
                intro hvv
                injection hvv with hrv
                exact absurd hrv.symm (ne_of_lt hvr)
            | succ k'' =>
                simp only [List.getD_cons_succ]
                exact hfirst k'' (by omega)
      · have hc : (PyFloat.fin r).lt (.fin qa) = false := by
          simp [PyFloat.lt, PyFloat.gt]
          exact le_of_not_lt hlt
        simp only [idxminGo, PyFloat.isnan, Bool.false_eq_true, if_false, hc]
        obtain ⟨j, v, h1, h2, h3, h4⟩ := idxminGo_some_spec xs (i + 1) a qa htail
        refine ⟨j, v, h1, h2, ?_, ?_⟩
        · intro s hs
          rcases List.mem_cons.1 hs with hh | hh
          · cases hh; exact le_trans h2 (le_of_not_lt hlt)
          · exact h3 s hh
        · rcases h4 with ⟨hja, hvq⟩ | ⟨k, hk, hj, hget, hvq, hfirst⟩
          · exact Or.inl ⟨hja, hvq⟩
          · refine Or.inr ⟨k + 1, by simpa using hk, by omega, by simpa using hget, hvq, ?_⟩
            intro k' hk'
            cases k' with
            | zero =>
                simp only [List.getD_cons_zero]
                intro hvv
                have hvr : v < r := lt_of_lt_of_le hvq (le_of_not_lt hlt)
                injection hvv with hrv
                exact absurd hrv.symm (ne_of_lt hvr)
            | succ k'' =>
                simp only [List.getD_cons_succ]
                exact hfirst k'' (by omega)

/-- `idxminGo` from the empty accumulator over a non-empty all-finite
series: the minimum value at its first index. -/
lemma idxminGo_none_spec :
    ∀ (xs : List PyFloat) (i : ℕ),
      (∀ x ∈ xs, ∃ q, x = .fin q) → xs ≠ [] →
      ∃ k v, idxminGo xs i none = some (i + k, .fin v) ∧ k < xs.length ∧
        xs.getD k .nan = .fin v ∧ (∀ r, .fin r ∈ xs → v ≤ r) ∧
        ∀ k', k' < k → xs.getD k' .nan ≠ .fin v
  | [], _, _, hne => absurd rfl hne
  | x :: xs, i, hfin, _ => by
      have htail := fun y hy => hfin y (List.mem_cons_of_mem x hy)
      obtain ⟨q, rfl⟩ := hfin x (List.mem_cons_self x xs)
      simp only [idxminGo, PyFloat.isnan, Bool.false_eq_true, if_false]
      obtain ⟨j, v, h1, h2, h3, h4⟩ := idxminGo_some_spec xs (i + 1) i q htail
      rcases h4 with ⟨rfl, rfl⟩ | ⟨k, hk, hj, hget, hvq, hfirst⟩
      · refine ⟨0, v, by simpa using h1, by simp, by simp, ?_, by omega⟩
        intro s hs
        rcases List.mem_cons.1 hs with hh | hh
        · cases hh; exact le_refl _
        · exact h3 s hh
      · refine ⟨k + 1, v, by rw [h1, show j = i + (k + 1) from by omega], by simpa using hk,
          by simpa using hget, ?_, ?_⟩
        · intro s hs
          rcases List.mem_cons.1 hs with hh | hh
          · cases hh; exact h2
          · exact h3 s hh
        · intro k' hk'
          cases k' with
          | zero =>
              simp only [List.getD_cons_zero]
              intro hvv
              injection hvv with hqv
              exact absurd hqv.symm (ne_of_lt hvq)
          | succ k'' =>
              simp only [List.getD_cons_succ]
              exact hfirst k'' (by omega)

/-- The skipna fold behind `Series.min` tracks the value component of the
`idxmin` scan (non-NaN accumulator). -/
lemma sminFold_sync :
    ∀ (xs : List PyFloat) (i a : ℕ) (v : PyFloat), v.isnan = false →
      ∃ j w, idxminGo xs i (some (a, v)) = some (j, w) ∧ w.isnan = false ∧
        xs.foldl sminStep v = w
  | [], i, a, v, hv => ⟨a, v, rfl, hv, rfl⟩
  | x :: xs, i, a, v, hv => by
      by_cases hx : x.isnan = true
      · simp only [idxminGo, List.foldl, sminStep, hx, if_true]
        exact sminFold_sync xs (i + 1) a v hv
      · have hx' : x.isnan = false := by revert hx; cases x.isnan <;> simp
        simp only [idxminGo, List.foldl, sminStep, hx', hv, Bool.false_eq_true, if_false]
        by_cases hg : x.lt v = true
        · simp only [hg, if_true]
          exact sminFold_sync xs (i + 1) i x hx'
        · simp only [hg, if_false]
          exact sminFold_sync xs (i + 1) a v hv

/-- Python's `min` fold over an all-finite tail: the result is finite, no
larger than the seed, an entry unless it is the seed, and bounds every
entry. -/
lemma pyMinFold_spec :
    ∀ (xs : List PyFloat) (qa : ℚ), (∀ x ∈ xs, ∃ q, x = .fin q) →
      ∃ v, xs.foldl (fun a b => if b.lt a then b else a) (.fin qa) = .fin v ∧
        v ≤ qa ∧ (v = qa ∨ .fin v ∈ xs) ∧ ∀ r, .fin r ∈ xs → v ≤ r
  | [], qa, _ => ⟨qa, rfl, le_refl _, Or.inl rfl, by simp⟩
  | x :: xs, qa, hfin => by
      have htail := fun y hy => hfin y (List.mem_cons_of_mem x hy)
      obtain ⟨r, rfl⟩ := hfin x (List.mem_cons_self x xs)
      by_cases hlt : r < qa
      · have hc : (PyFloat.fin r).lt (.fin qa) = true := by
          simp [PyFloat.lt, PyFloat.gt, hlt]
        simp only [List.foldl, hc, if_true]
        obtain ⟨v, h1, h2, h3, h4⟩ := pyMinFold_spec xs r htail
        refine ⟨v, h1, le_of_lt (lt_of_le_of_lt h2 hlt), ?_, ?_⟩
        · rcases h3 with rfl | hm
          · exact Or.inr (List.mem_cons_self _ _)
          · exact Or.inr (List.mem_cons_of_mem _ hm)
        · intro s hs
          rcases List.mem_cons.1 hs with hh | hh
          · cases hh; exact h2
          · exact h4 s hh
      · have hc : (PyFloat.fin r).lt (.fin qa) = false := by
          simp [PyFloat.lt, PyFloat.gt]
          exact le_of_not_lt hlt
        simp only [List.foldl, hc, Bool.false_eq_true, if_false]
        obtain ⟨v, h1, h2, h3, h4⟩ := pyMinFold_spec xs qa htail
        refine ⟨v, h1, h2, ?_, ?_⟩
        · rcases h3 with rfl | hm
          · exact Or.inl rfl
          · exact Or.inr (List.mem_cons_of_mem _ hm)
        · intro s hs
          rcases List.mem_cons.1 hs with hh | hh
          · cases hh; exact le_trans h2 (le_of_not_lt hlt)
          · exact h4 s hh

/-- `list.index` on an all-finite list finds the first position holding the
value. -/
lemma listIndex_spec :
    ∀ (xs : List PyFloat) (q : ℚ), .fin q ∈ xs →
      ∃ i, listIndex xs (.fin q) = some i ∧ i < xs.length ∧
        xs.getD i .nan = .fin q ∧ ∀ j, j < i → xs.getD j .nan ≠ .fin q
  | [], q, hm => absurd hm (by simp)
  | x :: xs, q, hm => by
      by_cases hx : x.pyEq (.fin q) = true
      · refine ⟨0, ?_, by simp, ?_, by omega⟩
        · simp only [listIndex, hx, if_true]
        · cases x <;> simp_all [PyFloat.pyEq]
      · have hx' : x.pyEq (.fin q) = false := by revert hx; cases x.pyEq (.fin q) <;> simp
        have hmem : PyFloat.fin q ∈ xs := by
          rcases List.mem_cons.1 hm with hh | hh
          · rw [← hh] at hx'
            cases x <;> simp_all [PyFloat.pyEq]
          · exact hh
        obtain ⟨i, h1, hlen, h2, h3⟩ := listIndex_spec xs q hmem
        refine ⟨i + 1, ?_, by simpa using hlen, by simpa using h2, ?_⟩
        · simp [listIndex, hx', h1]
        · intro j hj
          cases j with
          | zero =>
              simp only [List.getD_cons_zero]
              intro hvv
              rw [hvv] at hx'
              simp [PyFloat.pyEq] at hx'
          | succ j' =>
              simp only [List.getD_cons_succ]
              exact h3 j' (by omega)

/-- The minimum-value/first-index characterization determines a unique
pair. -/
lemma firstMin_unique {xs : List PyFloat} {v v2 : ℚ} {i i2 : ℕ}
    (h1 : i < xs.length) (h2 : xs.getD i .nan = .fin v)
    (h3 : ∀ r, .fin r ∈ xs → v ≤ r) (h4 : ∀ j, j < i → xs.getD j .nan ≠ .fin v)
    (g1 : i2 < xs.length) (g2 : xs.getD i2 .nan = .fin v2)
    (g3 : ∀ r, .fin r ∈ xs → v2 ≤ r) (g4 : ∀ j, j < i2 → xs.getD j .nan ≠ .fin v2) :
    v = v2 ∧ i = i2 := by
  have hm : PyFloat.fin v ∈ xs := h2 ▸ getD_mem_of_lt _ xs i h1
  have hm2 : PyFloat.fin v2 ∈ xs := g2 ▸ getD_mem_of_lt _ xs i2 g1
  have hvv : v = v2 := le_antisymm (h3 v2 hm2) (g3 v hm)
  subst hvv
  refine ⟨rfl, ?_⟩
  rcases lt_trichotomy i i2 with h | h | h
  · exact absurd h2 (g4 i h)
  · exact h
  · exact absurd g2 (h4 i2 h)

/-- Master lemma for the "Lowest Train MSE" line on a non-empty all-finite
series: both implementations report the minimum value together with the
size at the first index attaining it. -/
lemma lowestMse_spec (sizes : List Int) (mses : List PyFloat)
    (hne : mses ≠ []) (hfin : mses.all PyFloat.isfin = true) :
    ∃ q i, pandasLowestMse sizes mses = some (.fin q, sizes.getD i 0) ∧
      fallbackLowestMse sizes mses = some (.fin q, sizes.getD i 0) ∧
      i < mses.length ∧ mses.getD i .nan = .fin q ∧
      (∀ r, .fin r ∈ mses → q ≤ r) ∧
      ∀ j, j < i → mses.getD j .nan ≠ .fin q := by
  have hfinP : ∀ x ∈ mses, ∃ q, x = PyFloat.fin q :=
    fun x hx => isfin_shape (List.all_eq_true.1 hfin x hx)
  obtain ⟨m, rest, rfl⟩ : ∃ m rest, mses = m :: rest := by
    cases mses with
    | nil => exact absurd rfl hne
    | cons a l => exact ⟨a, l, rfl⟩
  obtain ⟨q0, rfl⟩ := hfinP m (List.mem_cons_self m rest)
  have hrestP : ∀ x ∈ rest, ∃ q, x = PyFloat.fin q :=
    fun x hx => hfinP x (List.mem_cons_of_mem _ hx)
  obtain ⟨k, v, hidx, hk, hget, hbound, hfirst⟩ :=
    idxminGo_none_spec (.fin q0 :: rest) 0 hfinP (by simp)
  have hstep : idxminGo (PyFloat.fin q0 :: rest) 0 none =
      idxminGo rest 1 (some (0, .fin q0)) := rfl
  obtain ⟨j2, w, hj2, hwn, hfold⟩ := sminFold_sync rest 1 0 (.fin q0) rfl
  have hjw : (0 + k, PyFloat.fin v) = (j2, w) :=
    Option.some.inj ((hidx.symm.trans hstep).trans hj2)
  injection hjw with hjj hww
  have hsmin : seriesMin (PyFloat.fin q0 :: rest) = .fin v := by
    have h0 : seriesMin (PyFloat.fin q0 :: rest) = List.foldl sminStep (.fin q0) rest := rfl
    rw [h0, hfold, ← hww]
  have hpandas : pandasLowestMse sizes (.fin q0 :: rest) = some (.fin v, sizes.getD k 0) := by
    have h1 : pandasLowestMse sizes (.fin q0 :: rest) =
        some (seriesMin (.fin q0 :: rest), sizes.getD (0 + k) 0) := by
      unfold pandasLowestMse
      rw [show seriesIdxmin (PyFloat.fin q0 :: rest) = some (0 + k, PyFloat.fin v) from hidx]
    rw [h1, hsmin, Nat.zero_add]
  obtain ⟨v2, hfold2, hle2, hmem2, hbound2⟩ := pyMinFold_spec rest q0 hrestP
  have hpm : pyMin (PyFloat.fin q0 :: rest) = some (.fin v2) := congrArg some hfold2
  have hmemAll : PyFloat.fin v2 ∈ PyFloat.fin q0 :: rest := by
    rcases hmem2 with rfl | hm
    · exact List.mem_cons_self _ _
    · exact List.mem_cons_of_mem _ hm
  obtain ⟨i2, hli, hlen2, hget2, hfirst2⟩ := listIndex_spec (.fin q0 :: rest) v2 hmemAll
  have hfall : fallbackLowestMse sizes (.fin q0 :: rest) = some (.fin v2, sizes.getD i2 0) := by
    have h1 : fallbackLowestMse sizes (.fin q0 :: rest) =
        (match listIndex (PyFloat.fin q0 :: rest) (.fin v2) with
          | none => none
          | some i => some (PyFloat.fin v2, sizes.getD i 0)) := by
      unfold fallbackLowestMse
      rw [hpm]
    rw [h1, hli]
  have hboundAll : ∀ r, PyFloat.fin r ∈ PyFloat.fin q0 :: rest → v2 ≤ r := by
    intro r hr
    rcases List.mem_cons.1 hr with hh | hh
    · injection hh with h
      exact h ▸ hle2
    · exact hbound2 r hh
  obtain ⟨hv, hi⟩ := firstMin_unique hk hget hbound hfirst hlen2 hget2 hboundAll hfirst2
  refine ⟨v, k, hpandas, ?_, hk, hget, hbound, hfirst⟩
  rw [hfall, ← hv, ← hi]

/-- `sizeArgminGo` returns its seed or a list element, of minimal size. -/
lemma sizeArgminGo_spec :
    ∀ (rs : List (Int × PyFloat)) (best : Int × PyFloat),
      (sizeArgminGo rs best = best ∨ sizeArgminGo rs best ∈ rs) ∧
      (sizeArgminGo rs best).1 ≤ best.1 ∧
      ∀ x ∈ rs, (sizeArgminGo rs best).1 ≤ x.1
  | [], best => ⟨Or.inl rfl, le_refl _, by simp⟩
  | r :: rs, best => by
      by_cases h : r.1 < best.1
      · have hc : (if r.1 < best.1 then r else best) = r := if_pos h
        simp only [sizeArgminGo, hc]
        obtain ⟨h1, h2, h3⟩ := sizeArgminGo_spec rs r
        refine ⟨?_, le_trans h2 (le_of_lt h), ?_⟩
        · rcases h1 with hh | hh
          · exact Or.inr (by rw [hh]; exact List.mem_cons_self _ _)
          · exact Or.inr (List.mem_cons_of_mem _ hh)
        · intro x hx
          rcases List.mem_cons.1 hx with rfl | hh
          · exact h2
          · exact h3 x hh
      · have hc : (if r.1 < best.1 then r else best) = best := if_neg h
        simp only [sizeArgminGo, hc]
        obtain ⟨h1, h2, h3⟩ := sizeArgminGo_spec rs best
        refine ⟨?_, h2, ?_⟩
        · rcases h1 with hh | hh
          · exact Or.inl hh
          · exact Or.inr (List.mem_cons_of_mem _ hh)
        · intro x hx
          rcases List.mem_cons.1 hx with rfl | hh
          · exact le_trans h2 (le_of_not_lt h)
          · exact h3 x hh

/-- Master lemma for the threshold search: when some row meets the goal the
reported row meets it with minimal size; otherwise the goal line is
omitted. -/
lemma thresholdSearch_spec (sizes : List Int) (psnrs : List PyFloat) (goal : ℚ) :
    ((∃ r ∈ sizes.zip psnrs, r.2.ge (.fin goal) = true) →
      ∃ s p, thresholdSearch sizes psnrs goal = some (s, p) ∧
        (s, p) ∈ sizes.zip psnrs ∧ p.ge (.fin goal) = true ∧
        (∀ r ∈ sizes.zip psnrs, r.2.ge (.fin goal) = true → s ≤ r.1) ∧
        reportGoal sizes psnrs goal =
          some (if p.isinf then .infPsnr s else .numPsnr s p)) ∧
    ((¬ ∃ r ∈ sizes.zip psnrs, r.2.ge (.fin goal) = true) →
      reportGoal sizes psnrs goal = none) := by
  constructor
  · rintro ⟨r0, hr0, hge0⟩
    have hmem : r0 ∈ (sizes.zip psnrs).filter (fun r => r.2.ge (.fin goal)) :=
      List.mem_filter.2 ⟨hr0, hge0⟩
    cases hF : (sizes.zip psnrs).filter (fun r => r.2.ge (.fin goal)) with
    | nil => rw [hF] at hmem; cases hmem
    | cons r rs =>
      obtain ⟨h1, h2, h3⟩ := sizeArgminGo_spec rs r
      have hresF : sizeArgminGo rs r ∈
          (sizes.zip psnrs).filter (fun r => r.2.ge (.fin goal)) := by
        rw [hF]
        rcases h1 with hh | hh
        · rw [hh]; exact List.mem_cons_self _ _
        · exact List.mem_cons_of_mem _ hh
      have hresZ := List.mem_filter.1 hresF
      have hts : thresholdSearch sizes psnrs goal = some (sizeArgminGo rs r) := by
        unfold thresholdSearch
        rw [hF]
      refine ⟨(sizeArgminGo rs r).1, (sizeArgminGo rs r).2, by rw [hts], ?_, hresZ.2, ?_, ?_⟩
      · simpa using hresZ.1
      · intro x hx hgex
        have hxF : x ∈ (sizes.zip psnrs).filter (fun r => r.2.ge (.fin goal)) :=
          List.mem_filter.2 ⟨hx, hgex⟩
        rw [hF] at hxF
        rcases List.mem_cons.1 hxF with rfl | hh
        · exact h2
        · exact h3 x hh
      · unfold reportGoal
        rw [hts]
        rfl
  · intro hno
    have hF : (sizes.zip psnrs).filter (fun r => r.2.ge (.fin goal)) = [] := by
      rw [List.filter_eq_nil_iff]
      intro a ha hga
      exact hno ⟨a, ha, hga⟩
    unfold reportGoal thresholdSearch
    rw [hF]
    rfl

/-- A key outside the header raises `KeyError` on every DictReader row. -/
lemma lookupCell_not_mem (hdr row : List String) (k : String) (h : k ∉ hdr) :
    lookupCell hdr row k = .error (.keyError k) := by
  unfold lookupCell
  have hf : (hdr.zip row).find? (fun p => p.1 == k) = none := by
    rw [List.find?_eq_none]
    rintro ⟨a, b⟩ hab hbeq
    have ha : a = k := by simpa using hbeq
    exact h (ha ▸ (List.of_mem_zip hab).1)
  rw [hf]

/-- Binding a success in the `Except` monad applies the continuation. -/
lemma eok_bind {ε α β : Type} (a : α) (f : α → Except ε β) :
    (Except.ok a : Except ε α) >>= f = f a := rfl

/-- Binding a raised exception short-circuits. -/
lemma eerr_bind {ε α β : Type} (e : ε) (f : α → Except ε β) :
    (Except.error e : Except ε α) >>= f = Except.error e := rfl

/-- When `size` is not a header column, row parsing raises `KeyError` on the
very first field access. -/
lemma parseRow_missing_size (hdr row : List String) (h : "size" ∉ hdr) :
    parseRow hdr row = .error (.keyError "size") := by
  unfold parseRow
  rw [lookupCell_not_mem hdr row _ h]
  rfl

/-- When `train_mse` is not a header column, row parsing raises: either the
`size` field already fails, or the `train_mse` access raises `KeyError`. -/
lemma parseRow_missing_train_mse (hdr row : List String) (h : "train_mse" ∉ hdr) :
    ∃ e, parseRow hdr row = .error e := by
  unfold parseRow
  cases h1 : lookupCell hdr row "size" with
  | error e => exact ⟨e, rfl⟩
  | ok szCell =>
    simp only [eok_bind]
    cases h2 : pyIntOfString szCell with
    | error e => exact ⟨e, rfl⟩
    | ok sz =>
      simp only [eok_bind]
      rw [lookupCell_not_mem hdr row _ h]
      exact ⟨.keyError "train_mse", rfl⟩

/-- The first failing row aborts the whole fallback read with its error:
there is no per-row skipping. -/
lemma fallbackLoad_abort :
    ∀ (hdr : List String) (pre : List (List String)) (bad : List String)
      (rest : List (List String)) (e : PyErr),
      (∀ r ∈ pre, ∃ m v, parseRow hdr r = .ok (m, v)) →
      parseRow hdr bad = .error e →
      fallbackLoad hdr (pre ++ bad :: rest) = .error e
  | hdr, [], bad, rest, e, _, hbad => by
      simp only [List.nil_append]
      unfold fallbackLoad
      rw [hbad]
      rfl
  | hdr, r :: pre, bad, rest, e, hpre, hbad => by
      obtain ⟨m, v, hr⟩ := hpre r (List.mem_cons_self _ _)
      have ih := fallbackLoad_abort hdr pre bad rest e
        (fun x hx => hpre x (List.mem_cons_of_mem _ hx)) hbad
      simp only [List.cons_append]
      unfold fallbackLoad
      rw [hr]
      simp only [eok_bind]
      rw [ih]
      rfl

/-- Python's `float` yields NaN only on a `nan` spelling. -/
lemma pyFloatOfString_nan (u : String) (h : pyFloatOfString u = .ok .nan) :
    nanSpelled u = true := by
  unfold nanSpelled
  simp only [pyFloatOfString] at h
  rcases hsp : splitSign (pyLower (pyStrip u.toList)) with ⟨neg, u1⟩
  split at h
  · exfalso
    injection h with hh
    split at hh <;> cases hh
  · split at h
    · rename_i hn
      rw [hsp] at hn
      exact hn
    · exfalso
      split at h
      · injection h with hh
        cases hh
      · cases h

/-- The loader's PSNR-cell handler yields NaN only via `float` on a `nan`
spelling (the explicit branch only produces +infinity). -/
lemma psnrOfCell_nan (s : String) (h : psnrOfCell s = .ok .nan) :
    nanSpelled (String.mk (pyStrip s.toList)) = true := by
  simp only [psnrOfCell] at h
  split at h
  · exfalso
    injection h with hh
    cases hh
  · exact pyFloatOfString_nan _ h

/-! ### Claim theorems -/

/-- C1, counterexample: a well-formed simple-schema CSV (`size, mse, psnr`)
is not tolerated.  The pandas path stops with the missing-required-columns
error naming `train_psnr`; the fallback path aborts its read with a
`KeyError` on `train_mse` — so a missing-column error and a parse failure do
occur, and no summary is produced. -/
theorem c1_counterexample :
    runPandas ["size", "mse", "psnr"] [4] [.fin 1] [.fin 20] =
      .missingColsError ["train_psnr"] ∧
    runFallback ["size", "mse", "psnr"] [["4", "0.01", "20"]] =
      .readError (.keyError "train_mse") := by decide

/-- C1, amended: every CSV whose header lacks the extended-schema columns is
rejected rather than tolerated: the pandas path exits with a
missing-required-columns error naming `train_psnr`, and the fallback path
(whenever at least one data row is present) aborts the read with an
exception, producing no Measurement series. -/
theorem c1_amended (hdr : List String) (sizes : List Int) (mses psnrs : List PyFloat)
    (r : List String) (rows : List (List String))
    (hp : "train_psnr" ∉ hdr) (hm : "train_mse" ∉ hdr) :
    (∃ M, runPandas hdr sizes mses psnrs = .missingColsError M ∧ "train_psnr" ∈ M) ∧
    ∃ e, runFallback hdr (r :: rows) = .readError e := by
  constructor
  · have hc : hdr.contains "train_psnr" = false := by
      rw [Bool.eq_false_iff]
      intro hcon
      exact hp (List.mem_of_elem_eq_true hcon)
    have hmem : "train_psnr" ∈ missing_cols hdr := by
      unfold missing_cols required_cols
      refine List.mem_filter.2 ⟨by simp, ?_⟩
      rw [hc]
      rfl
    have hne : missing_cols hdr ≠ [] := by
      intro hh
      rw [hh] at hmem
      cases hmem
    refine ⟨missing_cols hdr, ?_, hmem⟩
    unfold runPandas
    rw [if_pos hne]
  · obtain ⟨e, he⟩ := parseRow_missing_train_mse hdr r hm
    refine ⟨e, ?_⟩
    have hload : fallbackLoad hdr (r :: rows) = .error e :=
      fallbackLoad_abort hdr [] r rows e (by simp) he
    unfold runFallback
    rw [hload]

/-- C1, witness for the amended claim at the simple schema. -/
theorem c1_witness :
    ((∃ M, runPandas ["size", "mse", "psnr"] [] [] [] = .missingColsError M ∧
        "train_psnr" ∈ M) ∧
      ∃ e, runFallback ["size", "mse", "psnr"] [["4", "0.01", "20"]] = .readError e) :=
  c1_amended ["size", "mse", "psnr"] [] [] [] ["4", "0.01", "20"] []
    (by decide) (by decide)

/-- C2, counterexample: a CSV holding a row with the non-numeric `mse` cell
`"abc"` between two valid rows makes the fallback loader abort the whole
read with the `ValueError`; the other valid rows are not processed and no
warning/skip occurs. -/
theorem c2_counterexample :
    fallbackLoad ["size", "train_mse", "train_psnr"]
      [["4", "0.01", "20"], ["8", "abc", "30"], ["16", "0", "inf"]] =
      .error (.valueError "abc") := by decide

/-- C2, amended: there is no per-row skipping.  The first row that fails to
parse aborts the entire fallback run with that row's exception ("Error
reading CSV", exit 1); rows after it are never processed and the valid rows
before it are discarded. -/
theorem c2_amended (hdr : List String) (pre : List (List String)) (bad : List String)
    (rest : List (List String)) (e : PyErr)
    (hpre : ∀ r ∈ pre, ∃ m v, parseRow hdr r = .ok (m, v))
    (hbad : parseRow hdr bad = .error e) :
    fallbackLoad hdr (pre ++ bad :: rest) = .error e ∧
    runFallback hdr (pre ++ bad :: rest) = .readError e := by
  have h := fallbackLoad_abort hdr pre bad rest e hpre hbad
  refine ⟨h, ?_⟩
  unfold runFallback
  rw [h]

/-- C2, witness at the `"abc"` input. -/
theorem c2_witness :
    fallbackLoad ["size", "train_mse", "train_psnr"]
      ([["4", "1", "20"]] ++ ["8", "abc", "30"] :: [["16", "0", "inf"]]) =
      .error (.valueError "abc") ∧
    runFallback ["size", "train_mse", "train_psnr"]
      ([["4", "1", "20"]] ++ ["8", "abc", "30"] :: [["16", "0", "inf"]]) =
      .readError (.valueError "abc") :=
  c2_amended ["size", "train_mse", "train_psnr"] [["4", "1", "20"]]
    ["8", "abc", "30"] [["16", "0", "inf"]] (.valueError "abc")
    (by
      intro r hr
      rcases List.mem_singleton.1 hr with rfl
      exact ⟨⟨4, .fin 1, .fin 20, .fin 0, .fin 0⟩, false, by decide⟩)
    (by decide)

/-- C3, counterexample: on the series (4, 0.01, 20 dB), (8, 0.001, 30 dB),
(16, 0, ∞), both summarizers report the numeric best PSNR 30.00 dB at size
8 — not the perfect-reconstruction message, since a finite maximum exists —
and 20 is not one of the program's fixed goals, so no "smallest size for
goal 20" line is ever printed. -/
theorem c3_counterexample :
    pandasBestPsnr [4, 8, 16] [.fin 20, .fin 30, .inf] = .num (.fin 30) 8 ∧
    fallbackBestPsnr [4, 8, 16] [.fin 20, .fin 30, .inf] = .num (.fin 30) 8 ∧
    (20 : ℚ) ∉ goals := by decide

/-- C3, amended: on the series (4, 0.01, 20), (8, 0.001, 30), (16, 0, ∞)
the Summarizer reports best PSNR 30.00 dB at size 8 (the finite maximum;
the ∞ message appears only when every PSNR is infinite), lowest MSE 0 at
size 16, and threshold lines only for the fixed goals 30, 36, 40 dB —
size 8 for 30 dB and size 16 with the ∞ glyph for 36 and 40 dB.  The
generic threshold rule evaluated at 20 dB would select size 4, but 20 is
not in the goal set, so no such line is reported. -/
theorem c3_amended :
    pandasBestPsnr [4, 8, 16] [.fin 20, .fin 30, .inf] = .num (.fin 30) 8 ∧
    fallbackBestPsnr [4, 8, 16] [.fin 20, .fin 30, .inf] = .num (.fin 30) 8 ∧
    pandasLowestMse [4, 8, 16]
      [.fin (Rat.divInt 1 100), .fin (Rat.divInt 1 1000), .fin 0] = some (.fin 0, 16) ∧
    fallbackLowestMse [4, 8, 16]
      [.fin (Rat.divInt 1 100), .fin (Rat.divInt 1 1000), .fin 0] = some (.fin 0, 16) ∧
    goals = [30, 36, 40] ∧
    goals.map (reportGoal [4, 8, 16] [.fin 20, .fin 30, .inf]) =
      [some (.numPsnr 8 (.fin 30)), some (.infPsnr 16), some (.infPsnr 16)] ∧
    thresholdSearch [4, 8, 16] [.fin 20, .fin 30, .inf] 20 = some (4, .fin 20) := by
  decide

/-- C4: for every series of finite-or-infinite PSNRs containing at least
one finite value, both the pandas and the fallback Summarizer report the
same best PSNR, and it is the true maximum of the finite subset (infinite
entries are excluded from the numeric maximum). -/
theorem c4_best_psnr_is_finite_max (sizes : List Int) (psnrs : List PyFloat)
    (hwf : psnrs.all PyFloat.finOrInf = true)
    (hfin : ∃ q, PyFloat.fin q ∈ psnrs) :
    ∃ M s, pandasBestPsnr sizes psnrs = .num (.fin M) s ∧
      fallbackBestPsnr sizes psnrs = .num (.fin M) s ∧
      .fin M ∈ psnrs ∧ ∀ r, .fin r ∈ psnrs → r ≤ M := by
  have hne : psnrs ≠ [] := by
    rintro rfl
    rcases hfin with ⟨q, hq⟩
    cases hq
  obtain ⟨heq, -, hmax⟩ := bestPsnr_spec sizes psnrs hne hwf
  obtain ⟨M, s, h1, h2, h3⟩ := hmax hfin
  exact ⟨M, s, h1, heq.symm.trans h1, h2, h3⟩

/-- C4, witness. -/
theorem c4_witness :
    ∃ M s, pandasBestPsnr [4, 8] [.fin 20, .inf] = .num (.fin M) s ∧
      fallbackBestPsnr [4, 8] [.fin 20, .inf] = .num (.fin M) s ∧
      .fin M ∈ [PyFloat.fin 20, .inf] ∧
      ∀ r, PyFloat.fin r ∈ [PyFloat.fin 20, .inf] → r ≤ M :=
  c4_best_psnr_is_finite_max [4, 8] [.fin 20, .inf] (by decide) ⟨20, by decide⟩

/-- C5: for every non-empty series whose PSNRs are all +infinity, both
Summarizers report the textual perfect-reconstruction message and never a
numeric value. -/
theorem c5_all_inf_perfect (sizes : List Int) (psnrs : List PyFloat)
    (hne : psnrs ≠ []) (hall : ∀ p ∈ psnrs, p = .inf) :
    pandasBestPsnr sizes psnrs = .perfect ∧ fallbackBestPsnr sizes psnrs = .perfect := by
  have hwf : psnrs.all PyFloat.finOrInf = true := by
    rw [List.all_eq_true]
    intro x hx
    rw [hall x hx]
    rfl
  obtain ⟨heq, hperf, -⟩ := bestPsnr_spec sizes psnrs hne hwf
  have h1 := hperf hall
  exact ⟨h1, heq.symm.trans h1⟩

/-- C5, witness. -/
theorem c5_witness :
    pandasBestPsnr [4, 8] [.inf, .inf] = .perfect ∧
    fallbackBestPsnr [4, 8] [.inf, .inf] = .perfect :=
  c5_all_inf_perfect [4, 8] [.inf, .inf] (by decide) (by decide)

/-- C6: for each goal G in the fixed goal set, if some row has psnr ≥ G the
threshold search reports a row meeting G whose size is minimal among all
rows meeting G, rendered with the ∞ glyph exactly when that row's PSNR is
infinite; if no row meets G, the goal line is omitted (no error). -/
theorem c6_threshold_search (sizes : List Int) (psnrs : List PyFloat) (goal : ℚ)
    (_hg : goal ∈ goals) :
    ((∃ r ∈ sizes.zip psnrs, r.2.ge (.fin goal) = true) →
      ∃ s p, thresholdSearch sizes psnrs goal = some (s, p) ∧
        (s, p) ∈ sizes.zip psnrs ∧ p.ge (.fin goal) = true ∧
        (∀ r ∈ sizes.zip psnrs, r.2.ge (.fin goal) = true → s ≤ r.1) ∧
        reportGoal sizes psnrs goal =
          some (if p.isinf then .infPsnr s else .numPsnr s p)) ∧
    ((¬ ∃ r ∈ sizes.zip psnrs, r.2.ge (.fin goal) = true) →
      reportGoal sizes psnrs goal = none) :=
  thresholdSearch_spec sizes psnrs goal

/-- C6, witness at goal 30 on the example series. -/
theorem c6_witness :
    ∃ s p, thresholdSearch [4, 8, 16] [.fin 20, .fin 30, .inf] 30 = some (s, p) ∧
      (s, p) ∈ [(4 : Int), 8, 16].zip [PyFloat.fin 20, .fin 30, .inf] ∧
      p.ge (.fin 30) = true ∧
      (∀ r ∈ [(4 : Int), 8, 16].zip [PyFloat.fin 20, .fin 30, .inf],
        r.2.ge (.fin 30) = true → s ≤ r.1) ∧
      reportGoal [4, 8, 16] [.fin 20, .fin 30, .inf] 30 =
        some (if p.isinf then .infPsnr s else .numPsnr s p) :=
  (c6_threshold_search [4, 8, 16] [.fin 20, .fin 30, .inf] 30 (by decide)).1 (by decide)

/-- C7: for every non-empty all-finite MSE series, both Summarizers report
the minimum MSE value, with the size taken at the first index attaining
that minimum (ties broken by first occurrence in series order). -/
theorem c7_lowest_mse (sizes : List Int) (mses : List PyFloat)
    (hne : mses ≠ []) (hfin : mses.all PyFloat.isfin = true) :
    ∃ q i, pandasLowestMse sizes mses = some (.fin q, sizes.getD i 0) ∧
      fallbackLowestMse sizes mses = some (.fin q, sizes.getD i 0) ∧
      mses.getD i .nan = .fin q ∧ (∀ r, .fin r ∈ mses → q ≤ r) ∧
      ∀ j, j < i → mses.getD j .nan ≠ .fin q := by
  obtain ⟨q, i, h1, h2, -, h4, h5, h6⟩ := lowestMse_spec sizes mses hne hfin
  exact ⟨q, i, h1, h2, h4, h5, h6⟩

/-- C7, witness on a series with a tie for the minimum. -/
theorem c7_witness :
    ∃ q i, pandasLowestMse [4, 8, 16] [.fin 3, .fin 1, .fin 1] =
        some (.fin q, [(4 : Int), 8, 16].getD i 0) ∧
      fallbackLowestMse [4, 8, 16] [.fin 3, .fin 1, .fin 1] =
        some (.fin q, [(4 : Int), 8, 16].getD i 0) ∧
      [PyFloat.fin 3, .fin 1, .fin 1].getD i .nan = .fin q ∧
      (∀ r, PyFloat.fin r ∈ [PyFloat.fin 3, .fin 1, .fin 1] → q ≤ r) ∧
      ∀ j, j < i → [PyFloat.fin 3, .fin 1, .fin 1].getD j .nan ≠ .fin q :=
  c7_lowest_mse [4, 8, 16] [.fin 3, .fin 1, .fin 1] (by decide) (by decide)

/-- C8, counterexample: a row whose PSNR cell spells `nan` is not skipped —
`float("nan")` succeeds, so the row enters the Measurement series carrying
NaN, violating the "finite or +infinity, never NaN" invariant. -/
theorem c8_counterexample :
    fallbackLoad ["size", "train_mse", "train_psnr"] [["4", "0", "nan"]] =
      .ok ([⟨4, .fin 0, .nan, .fin 0, .fin 0⟩], false) := by decide

/-- C8, amended: after loading, a row's PSNR can be NaN exactly when its
cell spelt `nan` (case-insensitively, with optional sign and whitespace) —
that is the only way `float` yields NaN; and a PSNR cell that does not
parse at all does not cause the row to be skipped: it aborts the entire run
(the first failing row's exception becomes the whole read's error). -/
theorem c8_amended :
    (∀ (s : String) (v : PyFloat), psnrOfCell s = .ok v → v = .nan →
      nanSpelled (String.mk (pyStrip s.toList)) = true) ∧
    ∀ (hdr r : List String) (rs : List (List String)) (e : PyErr),
      parseRow hdr r = .error e → fallbackLoad hdr (r :: rs) = .error e := by
  constructor
  · intro s v h hnan
    subst hnan
    exact psnrOfCell_nan s h
  · intro hdr r rs e h
    exact fallbackLoad_abort hdr [] r rs e (by simp) h

/-- C8, witness. -/
theorem c8_witness :
    nanSpelled (String.mk (pyStrip "nan".toList)) = true ∧
    fallbackLoad ["size"] [["x"]] = .error (.valueError "x") :=
  ⟨c8_amended.1 "nan" .nan (by decide) rfl,
   c8_amended.2 ["size"] ["x"] [] (.valueError "x") (by decide)⟩

/-- C9, counterexample: a header-only CSV lacking `size` in the fallback
path is not rejected with a missing-columns message: the fallback table
always carries all five column names, so validation passes and the run
proceeds until the summary crashes with an uncaught IndexError (a Python
traceback, not the missing-columns error naming `size`). -/
theorem c9_counterexample : runFallback ["psnr"] [] = .crash := by decide

/-- C9, amended: in the pandas implementation every CSV lacking the `size`
column terminates with exit code 1 and the error listing the exact missing
required columns (naming `size`), before any statistic or chart — the
outcome is the validation error, not a summary.  In the fallback
implementation, a size-less CSV with a data row instead aborts during
loading with a CSV-read error (`KeyError: 'size'`), and the missing-columns
validator never fires. -/
theorem c9_amended :
    (∀ (hdr : List String) (sizes : List Int) (mses psnrs : List PyFloat),
      "size" ∉ hdr →
      runPandas hdr sizes mses psnrs = .missingColsError (missing_cols hdr) ∧
      "size" ∈ missing_cols hdr) ∧
    ∀ (hdr r : List String) (rs : List (List String)), "size" ∉ hdr →
      runFallback hdr (r :: rs) = .readError (.keyError "size") := by
  constructor
  · intro hdr sizes mses psnrs h
    have hc : hdr.contains "size" = false := by
      rw [Bool.eq_false_iff]
      intro hcon
      exact h (List.mem_of_elem_eq_true hcon)
    have hmem : "size" ∈ missing_cols hdr := by
      unfold missing_cols required_cols
      refine List.mem_filter.2 ⟨by simp, ?_⟩
      rw [hc]
      rfl
    have hne : missing_cols hdr ≠ [] := by
      intro hh
      rw [hh] at hmem
      cases hmem
    refine ⟨?_, hmem⟩
    unfold runPandas
    rw [if_pos hne]
  · intro hdr r rs h
    have hload : fallbackLoad hdr (r :: rs) = .error (.keyError "size") :=
      fallbackLoad_abort hdr [] r rs _ (by simp) (parseRow_missing_size hdr r h)
    unfold runFallback
    rw [hload]

/-- C9, witness. -/
theorem c9_witness :
    (runPandas ["psnr"] [] [] [] = .missingColsError (missing_cols ["psnr"]) ∧
      "size" ∈ missing_cols ["psnr"]) ∧
    runFallback ["mse", "psnr"] [["1", "20"]] = .readError (.keyError "size") :=
  ⟨c9_amended.1 ["psnr"] [] [] [] (by decide),
   c9_amended.2 ["mse", "psnr"] ["1", "20"] [] (by decide)⟩

/-- C10: on every loaded extended-schema series (non-empty, PSNRs finite or
infinite, MSEs finite), the pandas implementation and the csv-module
fallback implementation report the same best train PSNR result — same
numeric value and size, or both the perfect-reconstruction message — and
the same lowest train MSE result (same value and size). -/
theorem c10_pandas_fallback_agree (sizes : List Int) (mses psnrs : List PyFloat)
    (hneP : psnrs ≠ []) (hwf : psnrs.all PyFloat.finOrInf = true)
    (hneM : mses ≠ []) (hfin : mses.all PyFloat.isfin = true) :
    pandasBestPsnr sizes psnrs = fallbackBestPsnr sizes psnrs ∧
    pandasLowestMse sizes mses = fallbackLowestMse sizes mses := by
  refine ⟨(bestPsnr_spec sizes psnrs hneP hwf).1, ?_⟩
  obtain ⟨q, i, h1, h2, -, -, -, -⟩ := lowestMse_spec sizes mses hneM hfin
  rw [h1, h2]

/-- C10, witness. -/
theorem c10_witness :
    pandasBestPsnr [4, 8, 16] [.fin 20, .inf, .fin 30] =
      fallbackBestPsnr [4, 8, 16] [.fin 20, .inf, .fin 30] ∧
    pandasLowestMse [4, 8, 16] [.fin 1, .fin 0, .fin 0] =
      fallbackLowestMse [4, 8, 16] [.fin 1, .fin 0, .fin 0] :=
  c10_pandas_fallback_agree [4, 8, 16] [.fin 1, .fin 0, .fin 0]
    [.fin 20, .inf, .fin 30] (by decide) (by decide) (by decide) (by decide)

end PlotLutOpt
